import Mathlib

/-!
A verification development for `linkedin_network_scraper.py`.

Strings are modelled as `List Char`, Python `None`-able strings as
`Option (List Char)`.  Python's whitespace class (as used by the regex
`\s` and by `str.strip()`) is modelled on its ASCII part, which is the
part the separator heuristic and the test strings exercise.
-/

namespace Scraper

/-- The ASCII whitespace class: Python's `\s` and `str.strip()` on ASCII text. -/
def isWS (c : Char) : Bool :=
  c == ' ' || c == '\t' || c == '\n' || c == '\r' || c == '\x0b' || c == '\x0c'

/-- Leading-whitespace removal (the left half of Python `str.strip()`). -/
def lstrip (s : List Char) : List Char := s.dropWhile isWS

/-- Trailing-whitespace removal (the right half of Python `str.strip()`). -/
def rstrip (s : List Char) : List Char := (s.reverse.dropWhile isWS).reverse

/-- Python `str.strip()`: drop leading and trailing whitespace. -/
def strip (s : List Char) : List Char := rstrip (lstrip s)

/-!
### The headline parser (source: `parse_employer`, lines 22 and 32-39)

`EMPLOYER_SPLIT_RE = re.compile(r"\s+at\s+|\s+@\s+", re.IGNORECASE)` and
`EMPLOYER_SPLIT_RE.split(headline, maxsplit=1)`.

A match of the pattern consists of a nonempty whitespace run, then the core
token (`at` in any case, or `@`), then a nonempty whitespace run.  Both `\s+`
are greedy; backtracking the leading `\s+` can never help, because the core's
first character (`a`, `A` or `@`) is not whitespace, so a match starting at a
whitespace character always consumes that character's whole whitespace run.
`re.split` uses the leftmost match.
-/

/-- Core of the separator at the head of the list: `at` (case-insensitive) or
`@`, followed by at least one whitespace character.  Returns the text after
the core token (the trailing whitespace run still attached). -/
def coreCheck : List Char → Option (List Char)
  | c1 :: c2 :: rest =>
    if (c1 == 'a' || c1 == 'A') && (c2 == 't' || c2 == 'T') then
      match rest with
      | c3 :: _ => if isWS c3 then some rest else none
      | [] => none
    else if c1 == '@' && isWS c2 then some (c2 :: rest)
    else none
  | _ => none

/-- Does a match of `\s+at\s+|\s+@\s+` start exactly at the head of `s`?
If so, return the suffix after the (greedy) match. -/
def matchSep (s : List Char) : Option (List Char) :=
  match s with
  | [] => none
  | c :: _ =>
    if isWS c then
      match coreCheck (s.dropWhile isWS) with
      | some rem => some (rem.dropWhile isWS)
      | none => none
    else none

/-- `re.split(pattern, s, maxsplit=1)` restricted to the outcome it can have
here: `none` when no match occurs (Python returns the one-element list `[s]`),
`some (before, after)` for the leftmost match (Python returns `[before, after]`). -/
def splitOnce : List Char → Option (List Char × List Char)
  | [] => none
  | c :: cs =>
    match matchSep (c :: cs) with
    | some rest => some ([], rest)
    | none =>
      match splitOnce cs with
      | some pr => some (c :: pr.1, pr.2)
      | none => none

/-- Source lines 32-39.  `none` models passing Python `None`; `if not headline`
is true for both `None` and the empty string.  `parts[1].strip()` then
`return employer or None`. -/
def parse_employer (headline : Option (List Char)) : Option (List Char) :=
  match headline with
  | none => none
  | some h =>
    if h.isEmpty then none
    else
      match splitOnce h with
      | some pr =>
        let employer := strip pr.2
        if employer.isEmpty then none else some employer
      | none => none

/-- Follows the spec's words (§4.1): scan left to right for the first
case-insensitive occurrence of the literal separator `" at "` / `" @ "`
(whitespace-delimited on both sides), at most one split; the result of the
split is the text after the separator's core token.  The scan keeps one bit of
state: whether the previous character was whitespace. -/
def specScan : Bool → List Char → Option (List Char)
  | _, [] => none
  | prevWS, c :: cs =>
    match (if prevWS then coreCheck (c :: cs) else none) with
    | some rem => some rem
    | none => specScan (isWS c) cs

/-- The §4.1 contract, written from the spec's words: empty or null input is
absent; split on the first whitespace-delimited separator with at most one
split; trim the remainder; an empty trimmed remainder is absent. -/
def parse_employer_spec (headline : Option (List Char)) : Option (List Char) :=
  match headline with
  | none => none
  | some h =>
    if h.isEmpty then none
    else
      match specScan false h with
      | some rem =>
        let employer := strip rem
        if employer.isEmpty then none else some employer
      | none => none

/-!
### Connections and card extraction (source: lines 25-29 and 88-103)
-/

/-- The frozen dataclass `Connection` (source lines 25-29). -/
structure Connection where
  name : List Char
  headline : List Char
  employer : Option (List Char)
deriving DecidableEq

/-- One connection card: the optional `name` and `occupation` sub-nodes, each
carrying its `inner_text()`.  `none` models a missing sub-node. -/
structure Card where
  name : Option (List Char)
  occupation : Option (List Char)
deriving DecidableEq

/-- `node.inner_text().strip() if node else ""` (source lines 96-97). -/
def nodeText : Option (List Char) → List Char
  | some t => strip t
  | none => []

/-- Source lines 88-103: per card read the name and occupation sub-nodes, skip
the card when the trimmed name is empty, otherwise emit a `Connection` whose
employer is `parse_employer` of the trimmed headline. -/
def scrape_connections : List Card → List Connection
  | [] => []
  | card :: rest =>
    let name_text := nodeText card.name
    let headline_text := nodeText card.occupation
    if name_text.isEmpty then scrape_connections rest
    else ⟨name_text, headline_text, parse_employer (some headline_text)⟩ :: scrape_connections rest

/-!
### The scroll-convergence loop (source: `load_all_connections`, lines 72-85)

The driver is modelled as the sequence of `document.body.scrollHeight` reads,
one per loop round, indexed by the round number.
-/

/-- The loop's mutable state: `last_height`, `stable_rounds`, and how many
reads (scroll rounds) have happened. -/
structure ScrollState where
  last_height : Int
  stable_rounds : Nat
  idx : Nat
deriving DecidableEq

/-- One round of the `while stable_rounds < 3` body (source lines 77-84):
scroll, wait, read the current height, then either increment `stable_rounds`
or reset it and record the new height. -/
def scrollStep (r : Nat → Int) (s : ScrollState) : ScrollState :=
  let current_height := r s.idx
  if current_height = s.last_height then
    ⟨s.last_height, s.stable_rounds + 1, s.idx + 1⟩
  else
    ⟨current_height, 0, s.idx + 1⟩

/-- The loop state after `n` rounds, from `last_height = 0`, `stable_rounds = 0`
(source lines 74-75). -/
def stateAfter (r : Nat → Int) : Nat → ScrollState
  | 0 => ⟨0, 0, 0⟩
  | n + 1 => scrollStep r (stateAfter r n)

/-- `load_all_connections` performs exactly `n` scroll rounds and then stops:
the guard `stable_rounds < 3` fails for the first time after round `n`. -/
def terminatesAt (r : Nat → Int) (n : Nat) : Prop :=
  3 ≤ (stateAfter r n).stable_rounds ∧ ∀ k, k < n → (stateAfter r k).stable_rounds < 3

/-- The height-read sequence with the loop's initial `last_height = 0`
prepended: `pre r k` is the extent the loop has recorded before read `k`. -/
def pre (r : Nat → Int) : Nat → Int
  | 0 => 0
  | k + 1 => r k

/-- Written from the spec's words: after `n` reads, how many consecutive reads
(counted back from the last one) have equaled the previously recorded extent. -/
def runLen (r : Nat → Int) : Nat → Nat
  | 0 => 0
  | k + 1 => if r k = pre r k then runLen r k + 1 else 0

/-- Read `k` leaves the recorded extent unchanged (for read 0 this compares
with the initial `last_height = 0`). -/
def unchangedRead (r : Nat → Int) (k : Nat) : Prop := r k = pre r k

/-- The C2 example driver: extent reads `[100, 250, 250, 250, 250]`. -/
def c2Heights : Nat → Int := fun i => if i = 0 then 100 else 250

/-!
### Persistence (source: `save_connections`, lines 106-110)

`json.dump` output is modelled at the JSON-value level; `save_connections`
below is the document the source writes to the output path.
-/

/-- JSON values, as far as the output document needs them. -/
inductive JValue
  | jnull
  | jstr (s : List Char)
  | jarr (elems : List JValue)
  | jobj (fields : List (List Char × JValue))

def nameKey : List Char := ("name").data

def headlineKey : List Char := ("headline").data

def employerKey : List Char := ("employer").data

/-- The `employer` field: a string when present, JSON `null` when absent. -/
def employerJson : Option (List Char) → JValue
  | some e => JValue.jstr e
  | none => JValue.jnull

/-- `connection.__dict__` (source line 107): a flat object whose keys are the
dataclass fields in declaration order. -/
def connectionJson (c : Connection) : JValue :=
  JValue.jobj [(nameKey, JValue.jstr c.name), (headlineKey, JValue.jstr c.headline),
    (employerKey, employerJson c.employer)]

/-- The JSON document `save_connections` writes: one object per connection, in
input order (source lines 106-109). -/
def save_connections (conns : List Connection) : JValue :=
  JValue.jarr (conns.map connectionJson)

/-- The key list of a JSON object (empty for non-objects). -/
def objKeys : JValue → List (List Char)
  | JValue.jobj fields => fields.map Prod.fst
  | _ => []

/-- Field lookup in a JSON object. -/
def objField (v : JValue) (k : List Char) : Option JValue :=
  match v with
  | JValue.jobj fields => (fields.find? (fun f => f.1 == k)).map Prod.snd
  | _ => none

/-!
### Credentials and the orchestrator `main` (source: lines 42-47 and 120-151)
-/

/-- Python truthiness of an optional string: `None` and `""` are falsy. -/
def pyTruthy : Option (List Char) → Bool
  | none => false
  | some [] => false
  | some (_ :: _) => true

/-- Source lines 42-47: `if not username or not password: raise ValueError`,
else return the pair.  `Except.error ()` models the raised `ValueError`. -/
def ensure_credentials (username password : Option (List Char)) :
    Except Unit (List Char × List Char) :=
  if !pyTruthy username || !pyTruthy password then Except.error ()
  else Except.ok (username.getD [], password.getD [])

/-- The two ways a step inside the `with sync_playwright()` block can raise:
`PlaywrightTimeoutError`, or any other exception. -/
inductive PwErr
  | timeout
  | other
deriving DecidableEq

/-- Did the step raise? -/
def excFailed : Except ε α → Bool
  | Except.error _ => true
  | Except.ok _ => false

/-- One run's behaviour of every fallible step inside the browser-session
block, in program order (source lines 131-143): browser/context/page setup,
`login`, `open_connections_page`, `load_all_connections`, the scrape (whose
payload is the card list the DOM holds), the `save_connections` file write
(modelled as one atomic effect), and the two `close` calls. -/
structure SessionSteps where
  launchRes : Except PwErr Unit
  loginRes : Except PwErr Unit
  openRes : Except PwErr Unit
  loadRes : Except PwErr Unit
  scrapeRes : Except PwErr (List Card)
  saveRes : Except PwErr Unit
  closeRes : Except PwErr Unit

/-- The part of the block before the file write: first exception wins; on
success the scraped cards have been turned into connections. -/
def preSave (s : SessionSteps) : Except PwErr (List Connection) :=
  match s.launchRes with
  | Except.error e => Except.error e
  | Except.ok _ =>
    match s.loginRes with
    | Except.error e => Except.error e
    | Except.ok _ =>
      match s.openRes with
      | Except.error e => Except.error e
      | Except.ok _ =>
        match s.loadRes with
        | Except.error e => Except.error e
        | Except.ok _ =>
          match s.scrapeRes with
          | Except.error e => Except.error e
          | Except.ok cards => Except.ok (scrape_connections cards)

/-- Did something before the file write raise? -/
def preSaveFailed (s : SessionSteps) : Bool :=
  excFailed s.launchRes || excFailed s.loginRes || excFailed s.openRes ||
    excFailed s.loadRes || excFailed s.scrapeRes

/-- Did anything inside the browser-session block raise? -/
def sessionFails (s : SessionSteps) : Bool :=
  preSaveFailed s || excFailed s.saveRes || excFailed s.closeRes

/-- What a run leaves behind: the process exit code and what the output path
now holds (`none`: left untouched). -/
structure RunResult where
  exitCode : Nat
  written : Option JValue

/-- The `try`/`except` body of `main` (source lines 130-151): any
`PlaywrightTimeoutError` or other exception gives `return 1`, a clean run
gives `return 0`; the output document exists from the moment
`save_connections` returns. -/
def runSession (s : SessionSteps) : RunResult :=
  match preSave s with
  | Except.error _ => ⟨1, none⟩
  | Except.ok conns =>
    match s.saveRes with
    | Except.error _ => ⟨1, none⟩
    | Except.ok _ =>
      match s.closeRes with
      | Except.error _ => ⟨1, some (save_connections conns)⟩
      | Except.ok _ => ⟨0, some (save_connections conns)⟩

/-- How the `main` process ends: with a returned exit code, or with the
`ValueError` from `ensure_credentials` escaping `main` uncaught. -/
inductive MainOutcome
  | exited (r : RunResult)
  | uncaughtValueError

/-- Source lines 120-151: `ensure_credentials` runs before the `try` block, so
its `ValueError` is never turned into `return 1`. -/
def mainModel (username password : Option (List Char)) (s : SessionSteps) : MainOutcome :=
  match ensure_credentials username password with
  | Except.error _ => MainOutcome.uncaughtValueError
  | Except.ok _ => MainOutcome.exited (runSession s)

/-!
### Concrete inputs used by witnesses and the C4 counterexample
-/

/-- A run in which everything up to and including the file write succeeds and
`context.close()` then raises: the run fails (exit code 1) with the full
output file already written. -/
def closeFailSession : SessionSteps :=
  ⟨Except.ok (), Except.ok (), Except.ok (), Except.ok (),
    Except.ok [⟨some (("Ada").data), some (("Engineer at Acme").data)⟩],
    Except.ok (), Except.error PwErr.other⟩

/-- A run whose login times out. -/
def loginTimeoutSession : SessionSteps :=
  ⟨Except.ok (), Except.error PwErr.timeout, Except.ok (), Except.ok (),
    Except.ok [], Except.ok (), Except.ok ()⟩

/-- A fully successful run over one card. -/
def okSession : SessionSteps :=
  ⟨Except.ok (), Except.ok (), Except.ok (), Except.ok (),
    Except.ok [⟨some (("Ada").data), some (("Engineer at Acme").data)⟩],
    Except.ok (), Except.ok ()⟩

/-- One card whose name sub-node is present and whose occupation sub-node is
missing. -/
def c5Card : Card := ⟨some (("Alice").data), none⟩

/-!
## Lemmas and theorems
-/

theorem dropWhile_self (p : α → Bool) (l : List α) :
    List.dropWhile p (List.dropWhile p l) = List.dropWhile p l := by
  induction l with
  | nil => rfl
  | cons a t ih =>
    cases h : p a
    · simp [List.dropWhile_cons, h]
    · simp [List.dropWhile_cons, h, ih]

theorem length_dropWhile_le' (p : α → Bool) (l : List α) :
    (List.dropWhile p l).length ≤ l.length := by
  induction l with
  | nil => simp
  | cons a t ih =>
    cases h : p a
    · simp [List.dropWhile_cons, h]
    · simp only [List.dropWhile_cons, h, if_true]
      exact Nat.le_succ_of_le ih

theorem head_not_ws_of_lstrip_fixed (a : Char) (t : List Char)
    (h : lstrip (a :: t) = a :: t) : isWS a = false := by
  cases hw : isWS a
  · rfl
  · exfalso
    rw [lstrip, List.dropWhile_cons, hw, if_pos rfl] at h
    have h1 := congrArg List.length h
    have h2 := length_dropWhile_le' isWS t
    simp at h1
    omega

theorem lstrip_rstrip_fixed (m : List Char) (h : lstrip m = m) :
    lstrip (rstrip m) = rstrip m := by
  cases m with
  | nil => rfl
  | cons a t =>
    have ha : isWS a = false := head_not_ws_of_lstrip_fixed a t h
    rw [rstrip, show (a :: t).reverse = t.reverse ++ [a] from by simp,
      List.dropWhile_append]
    cases hd : (List.dropWhile isWS t.reverse).isEmpty
    · rw [if_neg (by simp [hd])]
      rw [List.reverse_append]
      simp only [List.reverse_cons, List.reverse_nil, List.nil_append, List.singleton_append]
      simp [lstrip, List.dropWhile_cons, ha]
    · rw [if_pos (by simp [hd])]
      simp [lstrip, List.dropWhile_cons, ha]

theorem rstrip_idem (m : List Char) : rstrip (rstrip m) = rstrip m := by
  rw [rstrip, rstrip, List.reverse_reverse, dropWhile_self]

theorem strip_idem (s : List Char) : strip (strip s) = strip s := by
  rw [strip, strip, lstrip_rstrip_fixed (lstrip s) (dropWhile_self isWS s),
    rstrip_idem]

theorem strip_dropWhile (s : List Char) :
    strip (List.dropWhile isWS s) = strip s := by
  rw [strip, strip]
  have : lstrip (List.dropWhile isWS s) = lstrip s := dropWhile_self isWS s
  rw [this]

theorem coreCheck_ws (c : Char) (cs : List Char) (h : isWS c = true) :
    coreCheck (c :: cs) = none := by
  cases cs with
  | nil => rfl
  | cons c2 r =>
    simp only [isWS, Bool.or_eq_true, beq_iff_eq] at h
    rcases h with ((((rfl | rfl) | rfl) | rfl) | rfl) | rfl <;> rfl

theorem splitOnce_cons_of_matchSep_none (c : Char) (cs : List Char)
    (h : matchSep (c :: cs) = none) :
    (splitOnce (c :: cs)).map (fun pr => strip pr.2) =
      (splitOnce cs).map (fun pr => strip pr.2) := by
  simp only [splitOnce, h]
  cases hsp : splitOnce cs <;> simp

theorem scanSplit (s : List Char) :
    ((splitOnce s).map (fun pr => strip pr.2) = (specScan false s).map strip) ∧
    ((specScan true s).map strip =
      match coreCheck (s.dropWhile isWS) with
      | some rem => some (strip rem)
      | none => (splitOnce s).map (fun pr => strip pr.2)) := by
  induction s with
  | nil => exact ⟨rfl, rfl⟩
  | cons c cs ih =>
    obtain ⟨ihM, ihA⟩ := ih
    cases hw : isWS c
    · have hms : matchSep (c :: cs) = none := by simp [matchSep, hw]
      have hdrop : (c :: cs).dropWhile isWS = c :: cs := by
        simp [List.dropWhile_cons, hw]
      have hsc : specScan false (c :: cs) = specScan false cs := by
        simp [specScan, hw]
      have hsct : specScan true (c :: cs) =
          match coreCheck (c :: cs) with
          | some rem => some rem
          | none => specScan false cs := by
        simp [specScan, hw]
      constructor
      · rw [splitOnce_cons_of_matchSep_none c cs hms, hsc]
        exact ihM
      · rw [hsct, hdrop]
        cases hcc : coreCheck (c :: cs) with
        | some rem => rfl
        | none =>
          rw [splitOnce_cons_of_matchSep_none c cs hms]
          exact ihM.symm
    · have hdrop : (c :: cs).dropWhile isWS = cs.dropWhile isWS := by
        simp [List.dropWhile_cons, hw]
      have hcor : coreCheck (c :: cs) = none := coreCheck_ws c cs hw
      have hsc : specScan false (c :: cs) = specScan true cs := by
        simp [specScan, hw]
      have hsct : specScan true (c :: cs) = specScan true cs := by
        simp [specScan, hw, hcor]
      constructor
      · rw [hsc, ihA]
        cases hcc : coreCheck (cs.dropWhile isWS) with
        | some rem =>
          have hms : matchSep (c :: cs) = some (rem.dropWhile isWS) := by
            simp [matchSep, hw, hdrop, hcc]
          simp [splitOnce, hms, strip_dropWhile]
        | none =>
          have hms : matchSep (c :: cs) = none := by
            simp [matchSep, hw, hdrop, hcc]
          rw [splitOnce_cons_of_matchSep_none c cs hms]
      · rw [hsct, hdrop, ihA]
        cases hcc : coreCheck (cs.dropWhile isWS) with
        | some rem => simp only [hcc]
        | none =>
          have hms : matchSep (c :: cs) = none := by
            simp [matchSep, hw, hdrop, hcc]
          simp only [hcc]
          exact (splitOnce_cons_of_matchSep_none c cs hms).symm

/-- C1: `parse_employer` realises the §4.1 contract — absent for empty/null
input, for no whitespace-delimited case-insensitive `" at "`/`" @ "`
separator, and for an empty trimmed remainder; otherwise the trimmed text
after the first separator with at most one split applied — together with the
contract's concrete examples. -/
theorem claim_C1 :
    (∀ h, parse_employer h = parse_employer_spec h) ∧
    parse_employer none = none ∧
    parse_employer (some []) = none ∧
    parse_employer (some (("Engineer at Acme").data)) = some (("Acme").data) ∧
    parse_employer (some (("Engineer AT Acme").data)) = some (("Acme").data) ∧
    parse_employer (some (("Engineer at ").data)) = none ∧
    parse_employer (some (("Freelancer").data)) = none ∧
    parse_employer (some (("Lead at BigCo at Division").data)) =
      some (("BigCo at Division").data) := by
  refine ⟨?_, rfl, rfl, by decide, by decide, by decide, by decide, by decide⟩
  intro h
  cases h with
  | none => rfl
  | some s =>
    simp only [parse_employer, parse_employer_spec]
    by_cases he : s.isEmpty = true
    · rw [if_pos he, if_pos he]
    · rw [if_neg he, if_neg he]
      have hmain := (scanSplit s).1
      cases h1 : splitOnce s with
      | none =>
        rw [h1] at hmain
        cases h2 : specScan false s with
        | none => rfl
        | some rem => rw [h2] at hmain; simp at hmain
      | some pr =>
        rw [h1] at hmain
        cases h2 : specScan false s with
        | none => rw [h2] at hmain; simp at hmain
        | some rem =>
          rw [h2] at hmain
          simp only [Option.map_some'] at hmain
          have hst : strip pr.2 = strip rem := Option.some.inj hmain
          simp only [hst]

/-- The loop state after `n` rounds is exactly: the last recorded extent, the
length of the current run of unchanged reads, and the read count. -/
theorem stateAfter_eq (r : Nat → Int) (n : Nat) :
    stateAfter r n = ⟨pre r n, runLen r n, n⟩ := by
  induction n with
  | zero => rfl
  | succ k ih =>
    have hpre : pre r (k + 1) = r k := rfl
    have hrl : runLen r (k + 1) = if r k = pre r k then runLen r k + 1 else 0 := rfl
    rw [stateAfter, ih, hpre, hrl]
    by_cases h : r k = pre r k
    · rw [if_pos h]
      simp [scrollStep, h]
    · rw [if_neg h]
      simp [scrollStep, h]

theorem runLen_le (r : Nat → Int) (n : Nat) : runLen r n ≤ n := by
  induction n with
  | zero => exact Nat.le_refl 0
  | succ k ih =>
    by_cases h : r k = pre r k
    · simp only [runLen, h, if_pos]
      omega
    · simp [runLen, h]

theorem runLen_succ_pos (r : Nat → Int) (n : Nat) (h : 0 < runLen r (n + 1)) :
    unchangedRead r n ∧ runLen r (n + 1) = runLen r n + 1 := by
  by_cases hc : r n = pre r n
  · exact ⟨hc, by simp [runLen, hc]⟩
  · exfalso
    simp [runLen, hc] at h

theorem three_consec (r : Nat → Int) (m : Nat) (h : 3 ≤ runLen r (m + 3)) :
    unchangedRead r m ∧ unchangedRead r (m + 1) ∧ unchangedRead r (m + 2) := by
  have e23 : m + 2 + 1 = m + 3 := by omega
  have e12 : m + 1 + 1 = m + 2 := by omega
  have h2 := runLen_succ_pos r (m + 2) (by rw [e23]; omega)
  have h2e := h2.2
  rw [e23] at h2e
  have h1 := runLen_succ_pos r (m + 1) (by rw [e12]; omega)
  have h1e := h1.2
  rw [e12] at h1e
  have h0 := runLen_succ_pos r m (by omega)
  exact ⟨h0.1, h1.1, h2.1⟩

/-- C2: the scroll loop stops exactly when the measured extent has equaled
the previously recorded extent for 3 consecutive reads, from
`last_extent = 0` and `stable_rounds = 0`; the driver with extent reads
`[100, 250, 250, 250, 250]` makes exactly 5 scroll rounds, then stops. -/
theorem claim_C2 :
    terminatesAt c2Heights 5 ∧
    ∀ (r : Nat → Int) (n : Nat),
      terminatesAt r n ↔ (3 ≤ runLen r n ∧ ∀ k, k < n → runLen r k < 3) := by
  constructor
  · exact ⟨by decide, by decide⟩
  · intro r n
    simp [terminatesAt, stateAfter_eq]

/-- C6: a driver whose extent-read sequence never contains 3 consecutive
unchanged reads makes the loop run forever — the loop has no other exit
condition and no iteration ceiling, so no round count ever terminates it. -/
theorem claim_C6 (r : Nat → Int)
    (h : ∀ k, ¬(unchangedRead r k ∧ unchangedRead r (k + 1) ∧ unchangedRead r (k + 2))) :
    ∀ n, ¬ terminatesAt r n := by
  intro n ht
  have h3 : 3 ≤ runLen r n := by
    have h4 := ht.1
    rw [stateAfter_eq] at h4
    exact h4
  have hn : 3 ≤ n := le_trans h3 (runLen_le r n)
  obtain ⟨m, rfl⟩ : ∃ m, n = m + 3 := ⟨n - 3, by omega⟩
  exact h m (three_consec r m h3)

theorem claim_C6_witness : ¬ terminatesAt (fun k => (k : Int) + 1) 6 :=
  claim_C6 (fun k => (k : Int) + 1)
    (by
      intro k hk
      have h1 := hk.2.1
      simp only [unchangedRead, pre] at h1
      omega)
    6

theorem runLen_const (c : Int) (hc : c ≠ 0) : ∀ k, runLen (fun _ => c) (k + 1) = k := by
  intro k
  induction k with
  | zero => simp [runLen, pre, hc]
  | succ j ih =>
    have hpre : pre (fun _ => c) (j + 1) = c := rfl
    have hrl : runLen (fun _ => c) (j + 1 + 1) =
        if c = pre (fun _ => c) (j + 1) then runLen (fun _ => c) (j + 1) + 1 else 0 := rfl
    rw [hrl, hpre, if_pos rfl, ih]

/-- C10: with `last_extent` initialised to 0, an all-zero extent sequence
stops the loop after exactly 3 rounds, while a constant nonzero sequence
needs 4 rounds (the first read resets the stability counter). -/
theorem claim_C10 (c : Int) (hc : c ≠ 0) :
    terminatesAt (fun _ => (0 : Int)) 3 ∧ terminatesAt (fun _ => c) 4 := by
  constructor
  · exact ⟨by decide, by decide⟩
  · constructor
    · rw [show (4 : Nat) = 3 + 1 from rfl, stateAfter_eq]
      show 3 ≤ runLen (fun _ => c) (3 + 1)
      rw [runLen_const c hc 3]
    · intro k hk
      rw [stateAfter_eq]
      show runLen (fun _ => c) k < 3
      interval_cases k
      · simp [runLen]
      · rw [show (1 : Nat) = 0 + 1 from rfl, runLen_const c hc 0]; omega
      · rw [show (2 : Nat) = 1 + 1 from rfl, runLen_const c hc 1]; omega
      · rw [show (3 : Nat) = 2 + 1 from rfl, runLen_const c hc 2]; omega

theorem claim_C10_witness :
    terminatesAt (fun _ => (0 : Int)) 3 ∧ terminatesAt (fun _ => (7 : Int)) 4 :=
  claim_C10 7 (by decide)

/-- The extraction loop is the filter of the cards with nonempty trimmed name,
mapped to records. -/
theorem scrape_eq (cards : List Card) :
    scrape_connections cards =
      (cards.filter (fun c => !(nodeText c.name).isEmpty)).map
        (fun c => ⟨nodeText c.name, nodeText c.occupation,
          parse_employer (some (nodeText c.occupation))⟩) := by
  induction cards with
  | nil => rfl
  | cons card rest ih =>
    by_cases h : (nodeText card.name).isEmpty = true
    · simp [scrape_connections, List.filter_cons, h, ih]
    · simp [scrape_connections, List.filter_cons, h, ih]

/-- C3: every connection `scrape_connections` emits has a name that is
non-empty after trimming; a card with an empty or whitespace-only name is
skipped (the function is total — no record, no error). -/
theorem claim_C3 (cards : List Card) (c : Connection)
    (hc : c ∈ scrape_connections cards) : strip c.name ≠ [] := by
  rw [scrape_eq] at hc
  obtain ⟨card, hmem, rfl⟩ := List.mem_map.1 hc
  have hkeep : (!(nodeText card.name).isEmpty) = true := (List.mem_filter.1 hmem).2
  have hidem : strip (nodeText card.name) = nodeText card.name := by
    cases hn : card.name with
    | none => rfl
    | some t => simp [nodeText, strip_idem]
  show strip (nodeText card.name) ≠ []
  rw [hidem]
  intro hnil
  rw [hnil] at hkeep
  simp at hkeep

theorem claim_C3_witness :
    strip (Connection.name ⟨("Alice").data, [], none⟩) ≠ [] :=
  claim_C3 [c5Card] ⟨("Alice").data, [], none⟩ (by decide)

/-- C5: the output is one record per card with non-empty trimmed name, in
card order — a missing name or headline sub-node reads as the empty string,
and each kept record's employer is `parse_employer` of the trimmed headline
(in particular a kept card with empty headline has no employer). -/
theorem claim_C5 :
    ∀ cards : List Card,
      (scrape_connections cards =
        (cards.filter (fun c => !(nodeText c.name).isEmpty)).map
          (fun c => ⟨nodeText c.name, nodeText c.occupation,
            parse_employer (some (nodeText c.occupation))⟩)) ∧
      (scrape_connections cards).length =
        (cards.filter (fun c => !(nodeText c.name).isEmpty)).length ∧
      ∀ c ∈ scrape_connections cards, c.headline = [] → c.employer = none := by
  intro cards
  refine ⟨scrape_eq cards, by rw [scrape_eq, List.length_map], ?_⟩
  intro c hc hh
  rw [scrape_eq] at hc
  obtain ⟨card, hmem, rfl⟩ := List.mem_map.1 hc
  show parse_employer (some (nodeText card.occupation)) = none
  have hocc : nodeText card.occupation = [] := hh
  rw [hocc]
  rfl

/-- C7: the persisted document is a JSON array with one flat object per
connection in input order; each object carries exactly the keys `name`,
`headline`, `employer`, the first two always strings and the last a string
or JSON `null`. -/
theorem claim_C7 :
    ∀ conns : List Connection,
      ∃ elems : List JValue,
        save_connections conns = JValue.jarr elems ∧
        elems.length = conns.length ∧
        List.Forall₂ (fun c e =>
          objKeys e = [nameKey, headlineKey, employerKey] ∧
          objField e nameKey = some (JValue.jstr c.name) ∧
          objField e headlineKey = some (JValue.jstr c.headline) ∧
          objField e employerKey = some (employerJson c.employer) ∧
          (∀ s, c.employer = some s → employerJson c.employer = JValue.jstr s) ∧
          (c.employer = none → employerJson c.employer = JValue.jnull)) conns elems := by
  intro conns
  refine ⟨conns.map connectionJson, rfl, by rw [List.length_map], ?_⟩
  induction conns with
  | nil => exact List.Forall₂.nil
  | cons c rest ih =>
    refine List.Forall₂.cons ⟨rfl, rfl, rfl, rfl, ?_, ?_⟩ ih
    · intro s hs
      rw [hs]
      rfl
    · intro hs
      rw [hs]
      rfl

/-- C8: the exit code of a run is 0 exactly when every step inside the
browser-session block completes, and 1 whenever any step raises — whether a
`PlaywrightTimeoutError` from login/navigation or any other exception. -/
theorem claim_C8 (s : SessionSteps) :
    (runSession s).exitCode = if sessionFails s then 1 else 0 := by
  obtain ⟨la, lo, op, ld, sc, sv, cl⟩ := s
  cases la <;> cases lo <;> cases op <;> cases ld <;> cases sc <;> cases sv <;> cases cl <;> rfl

/-- C9: `ensure_credentials` raises exactly when the username or password is
`None` or empty, otherwise returns the pair unchanged; the check runs before
`main`'s `try` block, so the raised `ValueError` escapes `main` uncaught
rather than becoming a returned 1. -/
theorem claim_C9 (u p : Option (List Char)) :
    (excFailed (ensure_credentials u p) = true ↔
      (u = none ∨ u = some [] ∨ p = none ∨ p = some [])) ∧
    (∀ a b, u = some a → p = some b → a ≠ [] → b ≠ [] →
      ensure_credentials u p = Except.ok (a, b)) ∧
    (∀ s : SessionSteps, excFailed (ensure_credentials u p) = true →
      mainModel u p s = MainOutcome.uncaughtValueError) := by
  refine ⟨?_, ?_, ?_⟩
  · cases u with
    | none => simp [ensure_credentials, pyTruthy, excFailed]
    | some a =>
      cases p with
      | none => cases a <;> simp [ensure_credentials, pyTruthy, excFailed]
      | some b => cases a <;> cases b <;> simp [ensure_credentials, pyTruthy, excFailed]
  · rintro a b rfl rfl ha hb
    cases a with
    | nil => exact absurd rfl ha
    | cons x xs =>
      cases b with
      | nil => exact absurd rfl hb
      | cons y ys => rfl
  · intro s hfail
    cases he : ensure_credentials u p with
    | error e => simp [mainModel, he]
    | ok v =>
      rw [he] at hfail
      exact Bool.noConfusion hfail

/-- C4 is refuted by this run: everything up to and including the file write
succeeds and `context.close()` then raises, so the run fails (exit code 1)
while the full output document sits at the output path — a failed run with
something persisted. -/
theorem claim_C4_cex :
    (runSession closeFailSession).exitCode = 1 ∧
    (runSession closeFailSession).written.isSome = true :=
  ⟨rfl, rfl⟩

/-- C4 (amended): on any failure at or before the file write nothing is
persisted, and anything persisted is always the complete document for the
scraped cards, never a partial one; only a failure after the write (the
browser close calls) exits 1 with the full output file already in place. -/
theorem claim_C4 (s : SessionSteps) :
    ((preSaveFailed s || excFailed s.saveRes) = true → (runSession s).written = none) ∧
    (∀ v, (runSession s).written = some v →
      ∃ cards, s.scrapeRes = Except.ok cards ∧
        v = save_connections (scrape_connections cards)) := by
  obtain ⟨la, lo, op, ld, sc, sv, cl⟩ := s
  constructor
  · intro hfail
    cases la <;> cases lo <;> cases op <;> cases ld <;> cases sc <;> cases sv <;> cases cl <;>
      first
        | rfl
        | exact Bool.noConfusion hfail
  · intro v hv
    cases la <;> cases lo <;> cases op <;> cases ld <;> cases sc <;> cases sv <;> cases cl <;>
      first
        | exact Option.noConfusion hv
        | exact ⟨_, rfl, (Option.some.inj hv).symm⟩

end Scraper
